import Mathlib

/-!
Verification of the in-memory CSV data engine of `csv-repair`
(`src/client/src/pages/csv-repair.tsx`).

Rows are JavaScript objects mapping column name to string value; we embed
them as association lists looked up by first occurrence, which matches
object-key semantics since object keys are unique.  Pixel quantities and
indices are embedded as `Nat`/`Int` (`historyIndex` starts at `-1` in the
source, so the cursor is an `Int`).  String case folding (`toLowerCase`,
the `i` regex flag) is embedded with `Char.toLower`, and JavaScript
`trim` with `jsTrim` below; both agree with JavaScript on ASCII text.
-/

/-- A dataset row: a JavaScript object from column name to cell value,
embedded as an association list (first occurrence wins, as object keys
are unique). -/
def Row : Type := List (String × String)

instance : DecidableEq Row := inferInstanceAs (DecidableEq (List (String × String)))

instance : Inhabited Row := ⟨([] : List (String × String))⟩

/-- `row[h] ?? ""`: look a column up in a row, absent keys read as `""`. -/
def getV : Row → String → String
  | [], _ => ""
  | (k, v) :: rest, h => if k = h then v else getV rest h

/-- `{ ...row, [k]: v }`: replace the value at an existing key in place,
or append the new key (JavaScript spread preserves key order). -/
def setKey : Row → String → String → Row
  | [], k, v => [(k, v)]
  | (k', v') :: rest, k, v =>
    if k' = k then (k, v) :: rest else (k', v') :: setKey rest k v

/-- `delete row[k]`: remove a key from a row. -/
def delKey (k : String) : Row → Row
  | [] => []
  | (k', v') :: rest => if k' = k then delKey k rest else (k', v') :: delKey k rest

/-- Whether a row has a key at all. -/
def hasKey : Row → String → Bool
  | [], _ => false
  | (k', _) :: rest, k => k' = k || hasKey rest k

/-- Strip leading and trailing whitespace from a character list. -/
def trimChars (cs : List Char) : List Char :=
  ((cs.dropWhile Char.isWhitespace).reverse.dropWhile Char.isWhitespace).reverse

/-- JavaScript `String.prototype.trim` (they agree on ASCII whitespace). -/
def jsTrim (s : String) : String := ⟨trimChars s.data⟩

theorem getV_setKey_self (row : Row) (k v : String) :
    getV (setKey row k v) k = v := by
  induction row with
  | nil => simp [setKey, getV]
  | cons p rest ih =>
    obtain ⟨k', v'⟩ := p
    by_cases h : k' = k
    · simp [setKey, h, getV]
    · simp [setKey, h, getV, ih]

theorem getV_setKey_ne (row : Row) (k v h : String) (hne : h ≠ k) :
    getV (setKey row k v) h = getV row h := by
  induction row with
  | nil =>
    have hkh : ¬ (k = h) := fun e => hne e.symm
    simp [setKey, getV, hkh]
  | cons p rest ih =>
    obtain ⟨k', v'⟩ := p
    by_cases hk : k' = k
    · subst hk
      have hkh : ¬ (k' = h) := fun e => hne e.symm
      simp [setKey, getV, hkh]
    · by_cases hh : k' = h
      · subst hh
        simp [setKey, hk, getV]
      · simp [setKey, hk, getV, hh, ih]

theorem getV_delKey_self (row : Row) (k : String) :
    getV (delKey k row) k = "" := by
  induction row with
  | nil => simp [delKey, getV]
  | cons p rest ih =>
    obtain ⟨k', v'⟩ := p
    by_cases h : k' = k
    · simp [delKey, h, ih]
    · simp [delKey, h, getV, ih]

theorem getV_delKey_ne (row : Row) (k h : String) (hne : h ≠ k) :
    getV (delKey k row) h = getV row h := by
  induction row with
  | nil => simp [delKey]
  | cons p rest ih =>
    obtain ⟨k', v'⟩ := p
    by_cases hk : k' = k
    · subst hk
      have hkh : ¬ (k' = h) := fun e => hne e.symm
      simp [delKey, getV, hkh, ih]
    · by_cases hh : k' = h
      · subst hh
        simp [delKey, hk, getV]
      · simp [delKey, hk, getV, hh, ih]

theorem hasKey_delKey (row : Row) (k : String) :
    hasKey (delKey k row) k = false := by
  induction row with
  | nil => simp [delKey, hasKey]
  | cons p rest ih =>
    obtain ⟨k', v'⟩ := p
    by_cases h : k' = k
    · simp [delKey, h, ih]
    · simp [delKey, h, hasKey, ih]

/-! ## History store

`pushHistory`, `handleUndo`, `handleRedo`, `canUndo`, `canRedo`
(csv-repair.tsx lines 1427-1457).  The snapshot the page displays
(`csvData.data`/`csvData.headers`) is carried alongside the log, since
undo/redo write it back from the log. -/

/-- A history entry `{data, headers, label}`. -/
structure HistoryEntry where
  data : List Row
  headers : List String
  label : String
deriving DecidableEq, Inhabited

/-- The dataset snapshot a history entry stores (headers and rows). -/
structure Snapshot where
  data : List Row
  headers : List String
deriving DecidableEq, Inhabited

def entrySnap (e : HistoryEntry) : Snapshot := ⟨e.data, e.headers⟩

/-- `MAX_HISTORY` (line 165). -/
def MAX_HISTORY : Nat := 50

/-- `history[i]` read at an `Int` index (indices used are nonnegative). -/
def entryAt (l : List HistoryEntry) (i : Int) : HistoryEntry :=
  l.getD i.toNat default

/-- The functional core of `pushHistory` (lines 1427-1438): truncate after
the cursor, append, evict the oldest entry past `MAX_HISTORY`
(`next.shift()`), and advance the cursor clamped to `MAX_HISTORY - 1`. -/
def pushHistory (history : List HistoryEntry) (historyIndex : Int)
    (e : HistoryEntry) : List HistoryEntry × Int :=
  let trimmed := history.take (historyIndex + 1).toNat
  let next := trimmed ++ [e]
  (if next.length > MAX_HISTORY then next.drop 1 else next,
   min (historyIndex + 1) ((MAX_HISTORY : Int) - 1))

/-- `pushHistory` when the truncated log is strictly under capacity:
plain append, cursor advances. -/
theorem pushHistory_eq_small (history : List HistoryEntry) (c : Int)
    (e : HistoryEntry) (h0 : 0 ≤ c) (hc : (c + 1).toNat ≤ history.length)
    (hlt : (c + 1).toNat < MAX_HISTORY) :
    pushHistory history c e = (history.take (c + 1).toNat ++ [e], c + 1) := by
  unfold pushHistory
  have hlen : (history.take (c + 1).toNat ++ [e]).length = (c + 1).toNat + 1 := by
    simp [List.length_take]; omega
  have hcond : ¬ ((history.take (c + 1).toNat ++ [e]).length > MAX_HISTORY) := by
    rw [hlen]; omega
  have hmin : min (c + 1) ((MAX_HISTORY : Int) - 1) = c + 1 := by
    apply min_eq_left; omega
  simp only [if_neg hcond, hmin]

/-- `pushHistory` when the truncated log is at capacity: the oldest entry
is evicted (`next.shift()`), the cursor stays clamped at
`MAX_HISTORY - 1`. -/
theorem pushHistory_eq_full (history : List HistoryEntry) (c : Int)
    (e : HistoryEntry) (h0 : 0 ≤ c) (hc : (c + 1).toNat ≤ history.length)
    (heq : (c + 1).toNat = MAX_HISTORY) :
    pushHistory history c e =
      ((history.take MAX_HISTORY ++ [e]).drop 1, (MAX_HISTORY : Int) - 1) := by
  unfold pushHistory
  simp only [heq]
  have htk : (history.take MAX_HISTORY).length = MAX_HISTORY := by
    rw [List.length_take]; omega
  have hcond : (history.take MAX_HISTORY ++ [e]).length > MAX_HISTORY := by
    rw [List.length_append, htk, List.length_singleton]; omega
  have hmin : min (c + 1) ((MAX_HISTORY : Int) - 1) = (MAX_HISTORY : Int) - 1 := by
    apply min_eq_right
    unfold MAX_HISTORY at heq ⊢; omega
  simp only [if_pos hcond, hmin]

/-- The history store's state: the log, the cursor (`historyIndex`,
`-1` before any load), and the displayed snapshot (`csvData`). -/
structure HistState where
  history : List HistoryEntry
  cursor : Int
  current : Snapshot
deriving DecidableEq

/-- `canUndo` (line 1440): `historyIndex > 0`. -/
def canUndo (s : HistState) : Prop := 0 < s.cursor

instance (s : HistState) : Decidable (canUndo s) := by
  unfold canUndo; infer_instance

/-- `canRedo` (line 1441): `historyIndex < history.length - 1`. -/
def canRedo (s : HistState) : Prop := s.cursor < (s.history.length : Int) - 1

instance (s : HistState) : Decidable (canRedo s) := by
  unfold canRedo; infer_instance

/-- One history-store operation: a push (every mutating handler), an undo,
or a redo. -/
inductive HistOp where
  | push (e : HistoryEntry)
  | undo
  | redo

/-- One step of the history store.  `push` is `pushHistory` followed by the
caller's `setCsvData` to the pushed data; `undo`/`redo` are
`handleUndo`/`handleRedo` (lines 1443-1457), which are guarded by
`canUndo`/`canRedo` and write `history[historyIndex ∓ 1]` back into
`csvData`. -/
def histStep (s : HistState) : HistOp → HistState
  | .push e =>
    let p := pushHistory s.history s.cursor e
    ⟨p.1, p.2, entrySnap e⟩
  | .undo =>
    if 0 < s.cursor then
      ⟨s.history, s.cursor - 1, entrySnap (entryAt s.history (s.cursor - 1))⟩
    else s
  | .redo =>
    if s.cursor < (s.history.length : Int) - 1 then
      ⟨s.history, s.cursor + 1, entrySnap (entryAt s.history (s.cursor + 1))⟩
    else s

/-- The state right after `processFile` succeeds (lines 1527-1528):
`history = [initial]`, `historyIndex = 0`. -/
def loadState (e : HistoryEntry) : HistState := ⟨[e], 0, entrySnap e⟩

/-- Run a sequence of history-store operations. -/
def runOps (s : HistState) (ops : List HistOp) : HistState :=
  ops.foldl histStep s

/-- Reachable-state invariant of the history store: the cursor is a valid
index, the log is within capacity, and the displayed snapshot is the log
entry at the cursor. -/
def HistInv (s : HistState) : Prop :=
  0 ≤ s.cursor ∧ s.cursor < (s.history.length : Int) ∧
    s.history.length ≤ MAX_HISTORY ∧
    s.current = entrySnap (entryAt s.history s.cursor)

instance (s : HistState) : Decidable (HistInv s) := by
  unfold HistInv; infer_instance

theorem histInv_load (e : HistoryEntry) : HistInv (loadState e) := by
  refine ⟨le_refl 0, by simp [loadState], by simp [loadState, MAX_HISTORY], ?_⟩
  simp [loadState, entryAt]

theorem getD_append_length (l : List HistoryEntry) (e d : HistoryEntry) :
    (l ++ [e]).getD l.length d = e := by
  rw [List.getD_eq_getElem?_getD, List.getElem?_concat_length]
  rfl

theorem getD_drop_one (l : List HistoryEntry) (i : Nat) (d : HistoryEntry) :
    (l.drop 1).getD i d = l.getD (1 + i) d := by
  rw [List.getD_eq_getElem?_getD, List.getD_eq_getElem?_getD, List.getElem?_drop]

theorem histInv_push (s : HistState) (e : HistoryEntry) (h : HistInv s) :
    HistInv (histStep s (.push e)) := by
  obtain ⟨h0, h1, h2, _⟩ := h
  have hc : (s.cursor + 1).toNat ≤ s.history.length := by omega
  by_cases hfull : (s.cursor + 1).toNat = MAX_HISTORY
  · have hstep : histStep s (.push e) =
        ⟨(s.history.take MAX_HISTORY ++ [e]).drop 1,
         (MAX_HISTORY : Int) - 1, entrySnap e⟩ := by
      show (⟨(pushHistory s.history s.cursor e).1,
        (pushHistory s.history s.cursor e).2, entrySnap e⟩ : HistState) = _
      rw [pushHistory_eq_full s.history s.cursor e h0 hc hfull]
    rw [hstep]
    unfold HistInv
    dsimp only
    have hlen50 : s.history.length = MAX_HISTORY := by omega
    have htk : s.history.take MAX_HISTORY = s.history := by
      apply List.take_of_length_le; omega
    have hlen : ((s.history.take MAX_HISTORY ++ [e]).drop 1).length =
        MAX_HISTORY := by
      rw [htk, List.length_drop, List.length_append, List.length_singleton,
        hlen50]
      omega
    refine ⟨by unfold MAX_HISTORY; omega, ?_, by rw [hlen], ?_⟩
    · rw [hlen]; unfold MAX_HISTORY; omega
    · unfold entryAt
      have h49 : ((MAX_HISTORY : Int) - 1).toNat = MAX_HISTORY - 1 := by
        unfold MAX_HISTORY; rfl
      rw [h49, getD_drop_one, htk]
      have hix : 1 + (MAX_HISTORY - 1) = s.history.length := by
        unfold MAX_HISTORY at hlen50 ⊢; omega
      rw [hix, getD_append_length]
  · have hlt : (s.cursor + 1).toNat < MAX_HISTORY := by
      unfold MAX_HISTORY at hfull h2 ⊢; omega
    have hstep : histStep s (.push e) =
        ⟨s.history.take (s.cursor + 1).toNat ++ [e],
         s.cursor + 1, entrySnap e⟩ := by
      show (⟨(pushHistory s.history s.cursor e).1,
        (pushHistory s.history s.cursor e).2, entrySnap e⟩ : HistState) = _
      rw [pushHistory_eq_small s.history s.cursor e h0 hc hlt]
    rw [hstep]
    unfold HistInv
    dsimp only
    have htklen : (s.history.take (s.cursor + 1).toNat).length =
        (s.cursor + 1).toNat := by rw [List.length_take]; omega
    have hlen : (s.history.take (s.cursor + 1).toNat ++ [e]).length =
        (s.cursor + 1).toNat + 1 := by
      rw [List.length_append, List.length_singleton, htklen]
    refine ⟨by omega, ?_, ?_, ?_⟩
    · rw [hlen]; omega
    · rw [hlen]; omega
    · unfold entryAt
      generalize hT : s.history.take (s.cursor + 1).toNat = T
      rw [hT] at htklen
      rw [← htklen, getD_append_length]

theorem histInv_step (s : HistState) (op : HistOp) (h : HistInv s) :
    HistInv (histStep s op) := by
  cases op with
  | push e => exact histInv_push s e h
  | undo =>
    by_cases hg : 0 < s.cursor
    · obtain ⟨h0, h1, h2, h3⟩ := h
      refine ⟨by simp [histStep, hg]; omega, by simp [histStep, hg]; omega,
        by simpa [histStep, hg] using h2, by simp [histStep, hg]⟩
    · simpa [histStep, hg] using h
  | redo =>
    by_cases hg : s.cursor < (s.history.length : Int) - 1
    · obtain ⟨h0, h1, h2, h3⟩ := h
      refine ⟨by simp [histStep, hg]; omega, by simp [histStep, hg]; omega,
        by simpa [histStep, hg] using h2, by simp [histStep, hg]⟩
    · simpa [histStep, hg] using h

theorem histInv_runOps (s : HistState) (ops : List HistOp) (h : HistInv s) :
    HistInv (runOps s ops) := by
  induction ops generalizing s with
  | nil => simpa [runOps] using h
  | cons op rest ih =>
    simpa [runOps] using ih (histStep s op) (histInv_step s op h)

theorem undo_redo_of_inv (s : HistState) (h : HistInv s) (hu : canUndo s) :
    (histStep (histStep s .undo) .redo).current = s.current := by
  obtain ⟨h0, h1, h2, h3⟩ := h
  have hg : 0 < s.cursor := hu
  have hg2 : s.cursor - 1 < ((s.history.length : Int)) - 1 := by omega
  simp only [histStep, if_pos hg]
  simp only [if_pos hg2]
  have : s.cursor - 1 + 1 = s.cursor := by omega
  rw [this, h3]

/-- Iterated undo. -/
def undoN : Nat → HistState → HistState
  | 0, s => s
  | k + 1, s => undoN k (histStep s .undo)

theorem undoN_history (k : Nat) (s : HistState) :
    (undoN k s).history = s.history := by
  induction k generalizing s with
  | zero => rfl
  | succ k ih =>
    show (undoN k (histStep s .undo)).history = s.history
    rw [ih]
    by_cases hg : 0 < s.cursor
    · simp [histStep, hg]
    · simp [histStep, hg]

theorem histInv_undoN (k : Nat) (s : HistState) (h : HistInv s) :
    HistInv (undoN k s) := by
  induction k generalizing s with
  | zero => exact h
  | succ k ih => exact ih _ (histInv_step s .undo h)

theorem current_mem_of_inv (s : HistState) (h : HistInv s) :
    s.current ∈ s.history.map entrySnap := by
  obtain ⟨h0, h1, h2, h3⟩ := h
  rw [h3]
  apply List.mem_map_of_mem
  unfold entryAt
  rw [List.getD_eq_getElem?_getD]
  have hlt : s.cursor.toNat < s.history.length := by omega
  rw [List.getElem?_eq_getElem hlt]
  exact List.getElem_mem hlt

/-- Pushing a list of entries onto a state whose cursor sits at the end of
the log keeps only the newest `MAX_HISTORY` entries: the log is the
concatenation with its oldest overflow dropped from the front. -/
theorem runPush_history (es : List HistoryEntry) (s : HistState)
    (hinv : HistInv s) (hend : s.cursor = (s.history.length : Int) - 1) :
    (runOps s (es.map .push)).history =
      (s.history ++ es).drop ((s.history.length + es.length) - MAX_HISTORY) := by
  induction es generalizing s with
  | nil =>
    obtain ⟨h0, h1, h2, h3⟩ := hinv
    simp only [List.map_nil, runOps, List.foldl_nil, List.append_nil,
      List.length_nil, Nat.add_zero]
    have hz : s.history.length - MAX_HISTORY = 0 := by omega
    rw [hz, List.drop_zero]
  | cons e es ih =>
    have hinv' : HistInv (histStep s (.push e)) := histInv_push s e hinv
    obtain ⟨h0, h1, h2, h3⟩ := hinv
    have hL1 : 1 ≤ s.history.length := by omega
    have hc : (s.cursor + 1).toNat ≤ s.history.length := by omega
    have hrun : runOps s ((e :: es).map .push) =
        runOps (histStep s (.push e)) (es.map .push) := rfl
    by_cases hfull : s.history.length = MAX_HISTORY
    · have hceq : (s.cursor + 1).toNat = MAX_HISTORY := by omega
      have hstep : histStep s (.push e) =
          ⟨(s.history.take MAX_HISTORY ++ [e]).drop 1,
           (MAX_HISTORY : Int) - 1, entrySnap e⟩ := by
        show (⟨(pushHistory s.history s.cursor e).1,
          (pushHistory s.history s.cursor e).2, entrySnap e⟩ : HistState) = _
        rw [pushHistory_eq_full s.history s.cursor e h0 hc hceq]
      have htk : s.history.take MAX_HISTORY = s.history := by
        apply List.take_of_length_le; omega
      have hlen' : ((s.history ++ [e]).drop 1).length = MAX_HISTORY := by
        rw [List.length_drop, List.length_append, List.length_singleton]
        omega
      have hend' : (histStep s (.push e)).cursor =
          (((histStep s (.push e)).history.length : Nat) : Int) - 1 := by
        rw [hstep]
        dsimp only
        rw [htk, hlen']
      have := ih (histStep s (.push e)) hinv' hend'
      rw [hrun, this, hstep]
      dsimp only
      rw [htk, hlen']
      have hone : (1 : Nat) ≤ (s.history ++ [e]).length := by
        rw [List.length_append, List.length_singleton]; omega
      have hsplit : (s.history ++ [e]).drop 1 ++ es =
          ((s.history ++ [e]) ++ es).drop 1 := by
        conv_rhs => rw [List.drop_append_of_le_length hone]
      rw [hsplit, List.drop_drop, List.append_assoc, List.singleton_append]
      congr 1
      rw [List.length_cons]
      omega
    · have hlt : (s.cursor + 1).toNat < MAX_HISTORY := by omega
      have hstep : histStep s (.push e) =
          ⟨s.history.take (s.cursor + 1).toNat ++ [e],
           s.cursor + 1, entrySnap e⟩ := by
        show (⟨(pushHistory s.history s.cursor e).1,
          (pushHistory s.history s.cursor e).2, entrySnap e⟩ : HistState) = _
        rw [pushHistory_eq_small s.history s.cursor e h0 hc hlt]
      have htk : s.history.take (s.cursor + 1).toNat = s.history := by
        apply List.take_of_length_le; omega
      have hlen' : (s.history ++ [e]).length = s.history.length + 1 := by
        rw [List.length_append, List.length_singleton]
      have hend' : (histStep s (.push e)).cursor =
          (((histStep s (.push e)).history.length : Nat) : Int) - 1 := by
        rw [hstep]
        dsimp only
        rw [htk, hlen']
        omega
      have := ih (histStep s (.push e)) hinv' hend'
      rw [hrun, this, hstep]
      dsimp only
      rw [htk, hlen', List.append_assoc, List.singleton_append]
      have harith : s.history.length + 1 + es.length =
          s.history.length + (e :: es).length := by
        rw [List.length_cons]; omega
      rw [harith]

/-- Claim C1: after any sequence of history-store operations on a loaded
dataset, undo is permitted iff the cursor is positive and redo iff the
cursor is before the last entry; when undo is permitted, undo immediately
followed by redo restores a snapshot (headers and rows) value-equal to the
one current before the undo. -/
theorem C1_undo_redo_roundtrip (e : HistoryEntry) (ops : List HistOp) :
    (canUndo (runOps (loadState e) ops) ↔
      0 < (runOps (loadState e) ops).cursor) ∧
    (canRedo (runOps (loadState e) ops) ↔
      (runOps (loadState e) ops).cursor <
        ((runOps (loadState e) ops).history.length : Int) - 1) ∧
    (canUndo (runOps (loadState e) ops) →
      (histStep (histStep (runOps (loadState e) ops) .undo) .redo).current =
        (runOps (loadState e) ops).current) := by
  have hinv := histInv_runOps (loadState e) ops (histInv_load e)
  exact ⟨Iff.rfl, Iff.rfl, fun hu => undo_redo_of_inv _ hinv hu⟩

/-- Claim C2: the history log never exceeds `MAX_HISTORY = 50` entries;
a push-only run from a load keeps exactly the newest 50 entries, evicting
from the front (oldest first, including the original load entry); after
`MAX_HISTORY` further pushes the original load snapshot is unreachable by
any number of undos. -/
theorem C2_capacity_eviction (e0 : HistoryEntry) (es : List HistoryEntry)
    (ops : List HistOp) :
    (runOps (loadState e0) ops).history.length ≤ MAX_HISTORY ∧
    (runOps (loadState e0) (es.map .push)).history =
      (e0 :: es).drop ((1 + es.length) - MAX_HISTORY) ∧
    (es.length = MAX_HISTORY →
      (∀ x ∈ es, entrySnap x ≠ entrySnap e0) →
      ∀ k, (undoN k (runOps (loadState e0) (es.map .push))).current ≠
        entrySnap e0) := by
  have hinv0 := histInv_load e0
  have hpush := runPush_history es (loadState e0) hinv0 (by simp [loadState])
  have hload : (loadState e0).history = [e0] := rfl
  refine ⟨(histInv_runOps (loadState e0) ops hinv0).2.2.1, ?_, ?_⟩
  · rw [hpush, hload]
    simp [List.singleton_append]
  · intro hlen hne k
    intro hcur
    have hinvf := histInv_runOps (loadState e0) (es.map .push) hinv0
    have hinvu := histInv_undoN k _ hinvf
    have hmem := current_mem_of_inv _ hinvu
    rw [undoN_history] at hmem
    rw [hpush, hload] at hmem
    have hdrop : ([e0] ++ es).drop (([e0] : List HistoryEntry).length
        + es.length - MAX_HISTORY) = es := by
      rw [List.singleton_append, List.length_singleton, hlen]
      have h1 : 1 + MAX_HISTORY - MAX_HISTORY = 1 := by omega
      rw [h1]
      simp
    rw [hdrop, hcur] at hmem
    obtain ⟨x, hx, hxe⟩ := List.mem_map.mp hmem
    exact hne x hx hxe

/-- Claim C3: pushing in a state where redo is available truncates every
entry beyond the cursor, appends the new entry, and leaves the cursor on
that new last entry, so no redo is possible right after a push. -/
theorem C3_push_truncates_redo (s : HistState) (e : HistoryEntry)
    (hinv : HistInv s) (hr : canRedo s) :
    (histStep s (.push e)).history =
      s.history.take (s.cursor + 1).toNat ++ [e] ∧
    (histStep s (.push e)).cursor =
      ((histStep s (.push e)).history.length : Int) - 1 ∧
    ¬ canRedo (histStep s (.push e)) := by
  obtain ⟨h0, h1, h2, h3⟩ := hinv
  have hrr : s.cursor < (s.history.length : Int) - 1 := hr
  have hc : (s.cursor + 1).toNat ≤ s.history.length := by omega
  have hlt : (s.cursor + 1).toNat < MAX_HISTORY := by
    unfold MAX_HISTORY at h2 ⊢; omega
  have hstep : histStep s (.push e) =
      ⟨s.history.take (s.cursor + 1).toNat ++ [e],
       s.cursor + 1, entrySnap e⟩ := by
    show (⟨(pushHistory s.history s.cursor e).1,
      (pushHistory s.history s.cursor e).2, entrySnap e⟩ : HistState) = _
    rw [pushHistory_eq_small s.history s.cursor e h0 hc hlt]
  have hlen : (s.history.take (s.cursor + 1).toNat ++ [e]).length =
      (s.cursor + 1).toNat + 1 := by
    rw [List.length_append, List.length_singleton, List.length_take]
    omega
  refine ⟨by rw [hstep], ?_, ?_⟩
  · rw [hstep]
    dsimp only
    rw [hlen]
    omega
  · unfold canRedo
    rw [hstep]
    dsimp only
    rw [hlen]
    omega

/-- Witness for C3 at a concrete state: a two-entry log with the cursor on
the first entry (one undo performed), then a push. -/
theorem C3_push_truncates_redo_witness :
    ¬ canRedo (histStep
      ⟨[⟨[], ["a"], "Initial load"⟩, ⟨[], ["a"], "edit"⟩], 0,
        entrySnap ⟨[], ["a"], "Initial load"⟩⟩
      (.push ⟨[], ["a"], "push after undo"⟩)) :=
  (C3_push_truncates_redo
    ⟨[⟨[], ["a"], "Initial load"⟩, ⟨[], ["a"], "edit"⟩], 0,
      entrySnap ⟨[], ["a"], "Initial load"⟩⟩
    ⟨[], ["a"], "push after undo"⟩ (by decide) (by decide)).2.2

/-! ## Windowing engine

`VirtualTable` (csv-repair.tsx lines 240-245): `startRow`, `visibleCount`,
`endRow` over the constants `ROW_HEIGHT` and `OVERSCAN` (lines 162-164).
Pixel quantities are embedded as `Nat`; truncated `Nat` subtraction
coincides with the source's `Math.max(0, ...)` around the subtraction,
and `Math.floor`/`Math.ceil` on nonnegative quotients are `Nat` floor and
ceiling division. -/

/-- `ROW_HEIGHT` (line 162). -/
def ROW_HEIGHT : Nat := 36

/-- `OVERSCAN` (line 164). -/
def OVERSCAN : Nat := 5

/-- `startRow = Math.max(0, Math.floor(scrollTop / ROW_HEIGHT) - OVERSCAN)`
(line 242). -/
def startRow (scrollTop : Nat) : Nat :=
  scrollTop / ROW_HEIGHT - OVERSCAN

/-- `visibleCount = Math.ceil(containerHeight / ROW_HEIGHT) + OVERSCAN * 2`
(line 243). -/
def visibleCount (containerHeight : Nat) : Nat :=
  (containerHeight + ROW_HEIGHT - 1) / ROW_HEIGHT + OVERSCAN * 2

/-- `endRow = Math.min(data.length, startRow + visibleCount)` (line 244). -/
def endRow (dataLength scrollTop containerHeight : Nat) : Nat :=
  min dataLength (startRow scrollTop + visibleCount containerHeight)

/-- Claim C6: the window `[startRow, endRow)` is clamped to
`[0, totalRows]`, contains every row whose pixel extent
`[i*ROW_HEIGHT, (i+1)*ROW_HEIGHT)` intersects the viewport
`[scrollTop, scrollTop + containerHeight)`, and its size is bounded by
`visibleCount containerHeight`, a constant independent of the total row
count. -/
theorem C6_window_covers_viewport (scrollTop containerHeight totalRows i : Nat)
    (hi : i < totalRows)
    (hbelow : i * ROW_HEIGHT < scrollTop + containerHeight)
    (habove : scrollTop < (i + 1) * ROW_HEIGHT) :
    endRow totalRows scrollTop containerHeight ≤ totalRows ∧
    startRow scrollTop ≤ i ∧
    i < endRow totalRows scrollTop containerHeight ∧
    endRow totalRows scrollTop containerHeight - startRow scrollTop ≤
      visibleCount containerHeight := by
  unfold endRow startRow visibleCount ROW_HEIGHT OVERSCAN at *
  have hq := Nat.div_add_mod scrollTop 36
  have hqlt : scrollTop % 36 < 36 := Nat.mod_lt _ (by omega)
  have hc := Nat.div_add_mod (containerHeight + 36 - 1) 36
  have hclt : (containerHeight + 36 - 1) % 36 < 36 := Nat.mod_lt _ (by omega)
  refine ⟨Nat.min_le_left _ _, ?_, ?_, ?_⟩
  · omega
  · exact lt_min hi (by omega)
  · omega

/-- Witness for C6: a concrete viewport (`scrollTop = 400`,
`containerHeight = 600`, 10000 rows) and the visible row 20. -/
theorem C6_window_covers_viewport_witness :
    startRow 400 ≤ 20 ∧ 20 < endRow 10000 400 600 :=
  ⟨(C6_window_covers_viewport 400 600 10000 20 (by decide) (by decide)
      (by decide)).2.1,
   (C6_window_covers_viewport 400 600 10000 20 (by decide) (by decide)
      (by decide)).2.2.1⟩

/-! ## Type detector

`TYPE_PATTERNS` and `detectColumnType` (csv-repair.tsx lines 103-158).
The email classifier's regex is embedded below.  The URL, phone and
currency regexes, the date test (which calls the host's `Date.parse`) and
the number test (the host's `Number` coercion) are not needed by any
claim: every theorem below is proved for all test functions in those
positions, which in particular covers the source's.  Confidence is an
exact rational; the source's 0.6 threshold on `matches / sampleSize` with
`sampleSize ≤ 200` is decided identically by floats and by `3/5`. -/

/-- The `DetectedType` union (line 101). -/
inductive DetectedType where
  | date
  | email
  | url
  | phone
  | currency
  | number
  | text
deriving DecidableEq, Inhabited

/-- One entry of `TYPE_PATTERNS`: a type tag and its value test. -/
structure TypePattern where
  type : DetectedType
  test : String → Bool

/-- The email test (line 106): `/^[^\s@]+@[^\s@]+\.[^\s@]+$/.test(v.trim())`.
The regex matches exactly the strings of shape `A@B.C` with `A`, `B`, `C`
nonempty and free of whitespace and `@`; equivalently: exactly one `@`,
no whitespace anywhere, a nonempty part before the `@`, and a `.` strictly
inside the part after the `@`. -/
def emailTest (v : String) : Bool :=
  let cs := (jsTrim v).toList
  let locPart := cs.takeWhile (fun c => c ≠ '@')
  let domPart := cs.drop (locPart.length + 1)
  cs.count '@' == 1 && cs.all (fun c => !c.isWhitespace) &&
    !locPart.isEmpty && (domPart.drop 1).dropLast.contains '.'

/-- `TYPE_PATTERNS` (lines 103-140), in source order: email, url, phone,
currency, date, number.  The five non-email tests are parameters (see the
section comment). -/
def TYPE_PATTERNS (urlT phoneT currencyT dateT numberT : String → Bool) :
    List TypePattern :=
  [⟨.email, emailTest⟩, ⟨.url, urlT⟩, ⟨.phone, phoneT⟩,
   ⟨.currency, currencyT⟩, ⟨.date, dateT⟩, ⟨.number, numberT⟩]

/-- `data.map((r) => r[header] ?? "").filter((v) => v.trim() !== "")`
(line 143). -/
def nonEmptyValues (data : List Row) (header : String) : List String :=
  (data.map (fun r => getV r header)).filter (fun v => !(jsTrim v == ""))

/-- The classifier loop of `detectColumnType` (lines 149-155): first
pattern whose match ratio over the sample reaches 0.6 wins; otherwise
text with confidence 1 (line 157). -/
def detectLoop (sample : List String) (sampleSize : Nat) :
    List TypePattern → DetectedType × ℚ
  | [] => (.text, 1)
  | p :: rest =>
    let matchCount := sample.countP p.test
    let confidence : ℚ := (matchCount : ℚ) / (sampleSize : ℚ)
    if confidence ≥ 3 / 5 then (p.type, confidence)
    else detectLoop sample sampleSize rest

/-- `detectColumnType` (lines 142-158), over a given pattern list. -/
def detectColumnType (patterns : List TypePattern) (data : List Row)
    (header : String) : DetectedType × ℚ :=
  let values := nonEmptyValues data header
  if values.length = 0 then (.text, 0)
  else
    let sampleSize := min values.length 200
    let sample := values.take sampleSize
    detectLoop sample sampleSize patterns

theorem take_min_length (l : List String) (n : Nat) :
    l.take (min l.length n) = l.take n := by
  rcases le_total l.length n with h | h
  · rw [min_eq_left h, List.take_length, List.take_of_length_le h]
  · rw [min_eq_right h]

theorem detectLoop_eq_find (sample : List String) (n : Nat)
    (pats : List TypePattern) :
    detectLoop sample n pats =
      match pats.find? (fun p =>
          decide ((sample.countP p.test : ℚ) / (n : ℚ) ≥ 3 / 5)) with
      | some p => (p.type, (sample.countP p.test : ℚ) / (n : ℚ))
      | none => (.text, 1) := by
  induction pats with
  | nil => rfl
  | cons p rest ih =>
    by_cases hp : (sample.countP p.test : ℚ) / (n : ℚ) ≥ 3 / 5
    · simp [detectLoop, List.find?, hp]
    · have hd : decide ((sample.countP p.test : ℚ) / (n : ℚ) ≥ 3 / 5) =
          false := by simpa using hp
      simp only [detectLoop, if_neg hp, List.find?, hd]
      exact ih

/-- Claim C7: type detection applies the classifiers in the fixed order
email, url, phone, currency, date, number; for a column with non-empty
values it samples the first 200 of them and returns the first classifier
whose match ratio reaches 0.6 (text with confidence 1 if none does); a
column with no non-empty values is text with confidence 0; and the sample
`["a@b.com", "c@d.com", "not-an-email"]` is classified email with
confidence 2/3. -/
theorem C7_type_detection (urlT phoneT currencyT dateT numberT :
    String → Bool) :
    ((TYPE_PATTERNS urlT phoneT currencyT dateT numberT).map
        TypePattern.type =
      [.email, .url, .phone, .currency, .date, .number]) ∧
    (∀ data h, nonEmptyValues data h = [] →
      detectColumnType (TYPE_PATTERNS urlT phoneT currencyT dateT numberT)
        data h = (.text, 0)) ∧
    (∀ pats data h, nonEmptyValues data h ≠ [] →
      detectColumnType pats data h =
        match pats.find? (fun p =>
            decide ((((nonEmptyValues data h).take 200).countP p.test : ℚ) /
              (((nonEmptyValues data h).take 200).length : ℚ) ≥ 3 / 5)) with
        | some p => (p.type,
            (((nonEmptyValues data h).take 200).countP p.test : ℚ) /
              (((nonEmptyValues data h).take 200).length : ℚ))
        | none => (.text, 1)) ∧
    detectColumnType (TYPE_PATTERNS urlT phoneT currencyT dateT numberT)
      ([[("col", "a@b.com")], [("col", "c@d.com")],
        [("col", "not-an-email")]] : List Row) "col" = (.email, 2 / 3) := by
  refine ⟨rfl, ?_, ?_, ?_⟩
  · intro data h hemp
    simp [detectColumnType, hemp]
  · intro pats data h hne
    have hlen : ¬ (nonEmptyValues data h).length = 0 := by
      simpa [List.length_eq_zero] using hne
    show (if (nonEmptyValues data h).length = 0 then ((.text, 0) :
        DetectedType × ℚ)
      else detectLoop ((nonEmptyValues data h).take
          (min (nonEmptyValues data h).length 200))
        (min (nonEmptyValues data h).length 200) pats) = _
    rw [if_neg hlen, take_min_length]
    have hslen : ((nonEmptyValues data h).take 200).length =
        min (nonEmptyValues data h).length 200 := by
      rw [List.length_take, min_comm]
    rw [detectLoop_eq_find, hslen]
  · show detectLoop ["a@b.com", "c@d.com", "not-an-email"] 3
        (TYPE_PATTERNS urlT phoneT currencyT dateT numberT) =
      (.email, 2 / 3)
    have hcount : List.countP emailTest
        ["a@b.com", "c@d.com", "not-an-email"] = 2 := rfl
    simp only [TYPE_PATTERNS, detectLoop, hcount]
    norm_num

/-! ## Diff engine

`DiffPreview` (csv-repair.tsx lines 690-761): the `changes` computation
(lines 701-711), the capped rendering `changes.slice(0, 200)` (line 740)
and the badge count `changes.length` (line 725). -/

/-- One emitted difference `{row, col, oldVal, newVal}`. -/
structure Change where
  row : Nat
  col : String
  oldVal : String
  newVal : String
deriving DecidableEq

/-- `r < data.length ? (data[r][h] ?? "") : ""` (lines 705-706). -/
def valueAt (data : List Row) (r : Nat) (h : String) : String :=
  if r < data.length then getV (data.getD r default) h else ""

/-- The `changes` list of `DiffPreview` (lines 701-711): iterate row
indices `0 ..< max(len₁, len₂)` and the current header list in order,
emitting every differing pair. -/
def diffChanges (originalData currentData : List Row)
    (headers : List String) : List Change :=
  (List.range (max originalData.length currentData.length)).flatMap
    (fun r => headers.filterMap (fun h =>
      let oldV := valueAt originalData r h
      let newV := valueAt currentData r h
      if oldV ≠ newV then some ⟨r, h, oldV, newV⟩ else none))

/-- The rendered entries, capped at 200 (`changes.slice(0, 200)`,
line 740). -/
def diffRendered (originalData currentData : List Row)
    (headers : List String) : List Change :=
  (diffChanges originalData currentData headers).take 200

/-- The reported total (`changes.length` badge, line 725). -/
def diffReportedCount (originalData currentData : List Row)
    (headers : List String) : Nat :=
  (diffChanges originalData currentData headers).length

/-- The data transform of `handleCellEdit` (lines 1581-1593):
`newData[rowIndex] = { ...newData[rowIndex], [header]: value }`. -/
def editCell (data : List Row) (r : Nat) (h v : String) : List Row :=
  data.set r (setKey (data.getD r default) h v)

theorem flatMap_nil_of (l : List Nat) (f : Nat → List Change)
    (h : ∀ r ∈ l, f r = []) : l.flatMap f = [] := by
  induction l with
  | nil => rfl
  | cons a rest ih =>
    rw [List.flatMap_cons, h a (by simp), ih (fun r hr => h r (by simp [hr]))]
    rfl

theorem flatMap_range_single (n r : Nat) (f : Nat → List Change)
    (x : Change) (hr : r < n) (hothers : ∀ j, j < n → j ≠ r → f j = [])
    (hfr : f r = [x]) : (List.range n).flatMap f = [x] := by
  induction n with
  | zero => omega
  | succ n ih =>
    rw [List.range_succ, List.flatMap_append]
    by_cases hrn : r = n
    · subst hrn
      rw [flatMap_nil_of _ _ (fun j hj => hothers j (by
          simp at hj; omega) (by simp at hj; omega))]
      simp [hfr]
    · rw [ih (by omega) (fun j hj hjr => hothers j (by omega) hjr)]
      rw [List.flatMap_cons, hothers n (by omega) (fun hh => hrn hh.symm)]
      rfl

theorem filterMap_single (f : String → Option Change) (col : String)
    (x : Change) :
    ∀ hs : List String, hs.Nodup → col ∈ hs → f col = some x →
      (∀ h ∈ hs, h ≠ col → f h = none) → hs.filterMap f = [x] := by
  intro hs
  induction hs with
  | nil =>
    intro _ hcol _ _
    cases hcol
  | cons a rest ih =>
    intro hnd hcol hfc hother
    by_cases ha : a = col
    · subst ha
      have hrest : rest.filterMap f = [] := by
        rw [List.filterMap_eq_nil_iff]
        intro b hb
        apply hother b (by simp [hb])
        intro hba
        subst hba
        exact (List.nodup_cons.mp hnd).1 hb
      rw [List.filterMap_cons_some hfc, hrest]
    · have hcol' : col ∈ rest := by
        rcases List.mem_cons.mp hcol with h | h
        · exact absurd h.symm ha
        · exact h
      have hfa : f a = none := hother a (by simp) ha
      rw [List.filterMap_cons_none hfa]
      exact ih (List.nodup_cons.mp hnd).2 hcol' hfc
        (fun h hh hhc => hother h (List.mem_cons_of_mem a hh) hhc)

theorem valueAt_editCell_ne_row (data : List Row) (r j : Nat)
    (col v h : String) (hj : j ≠ r) :
    valueAt (editCell data r col v) j h = valueAt data j h := by
  unfold valueAt editCell
  rw [List.length_set]
  by_cases hlt : j < data.length
  · rw [if_pos hlt, if_pos hlt]
    have : (data.set r (setKey (data.getD r default) col v)).getD j default =
        data.getD j default := by
      rw [List.getD_eq_getElem?_getD,
        List.getElem?_set_ne (fun hh => hj hh.symm),
        List.getD_eq_getElem?_getD]
    rw [this]
  · rw [if_neg hlt, if_neg hlt]

theorem valueAt_editCell_self (data : List Row) (r : Nat) (col v : String)
    (hr : r < data.length) :
    valueAt (editCell data r col v) r col = v := by
  unfold valueAt editCell
  rw [List.length_set, if_pos hr]
  have : (data.set r (setKey (data.getD r default) col v)).getD r default =
      setKey (data.getD r default) col v := by
    rw [List.getD_eq_getElem?_getD, List.getElem?_set_self hr]
    rfl
  rw [this, getV_setKey_self]

theorem valueAt_editCell_ne_col (data : List Row) (r : Nat)
    (col v h : String) (hh : h ≠ col) :
    valueAt (editCell data r col v) r h = valueAt data r h := by
  unfold valueAt editCell
  rw [List.length_set]
  by_cases hlt : r < data.length
  · rw [if_pos hlt, if_pos hlt]
    have hget : (data.set r (setKey (data.getD r default) col v)).getD r
        default = setKey (data.getD r default) col v := by
      rw [List.getD_eq_getElem?_getD, List.getElem?_set_self hlt]
      rfl
    rw [hget, getV_setKey_ne _ _ _ _ hh]
  · rw [if_neg hlt, if_neg hlt]

/-- Claim C8: the diff of a snapshot with itself is empty; membership in
the diff list is exactly "differing pair over the iterated index range
and current headers, missing row read as empty"; rendering caps at 200
entries but the reported total is the full list's length; and one cell
edit produces exactly the one matching change. -/
theorem C8_diff_engine (o c dta : List Row) (hs : List String) (r : Nat)
    (col v : String) :
    diffChanges o o hs = [] ∧
    (∀ e : Change, e ∈ diffChanges o c hs ↔
      (e.row < max o.length c.length ∧ e.col ∈ hs ∧
        valueAt o e.row e.col ≠ valueAt c e.row e.col ∧
        e.oldVal = valueAt o e.row e.col ∧
        e.newVal = valueAt c e.row e.col)) ∧
    diffRendered o c hs ++ (diffChanges o c hs).drop 200 =
      diffChanges o c hs ∧
    diffReportedCount o c hs = (diffChanges o c hs).length ∧
    (hs.Nodup → r < dta.length → col ∈ hs → v ≠ valueAt dta r col →
      diffChanges dta (editCell dta r col v) hs =
        [⟨r, col, valueAt dta r col, v⟩]) := by
  refine ⟨?_, ?_, List.take_append_drop 200 _, rfl, ?_⟩
  · unfold diffChanges
    apply flatMap_nil_of
    intro rr _
    rw [List.filterMap_eq_nil_iff]
    intro h _
    simp
  · intro e
    obtain ⟨er, ecol, ov, nv⟩ := e
    unfold diffChanges
    simp only [List.mem_flatMap, List.mem_filterMap, List.mem_range]
    constructor
    · rintro ⟨rr, hrr, h, hh, hsome⟩
      by_cases hne : valueAt o rr h ≠ valueAt c rr h
      · rw [if_pos hne] at hsome
        injection hsome with he
        injection he with h1 h2 h3 h4
        subst h1; subst h2; subst h3; subst h4
        exact ⟨hrr, hh, hne, rfl, rfl⟩
      · rw [if_neg hne] at hsome
        cases hsome
    · rintro ⟨hrr, hh, hne, ho, hn⟩
      subst ho; subst hn
      exact ⟨er, hrr, ecol, hh, by rw [if_pos hne]⟩
  · intro hnd hr hcol hne
    unfold diffChanges
    have hlen : (editCell dta r col v).length = dta.length := by
      unfold editCell; rw [List.length_set]
    rw [hlen, max_self]
    apply flatMap_range_single dta.length r _ _ hr
    · intro j hj hjr
      rw [List.filterMap_eq_nil_iff]
      intro h _
      rw [valueAt_editCell_ne_row dta r j col v h hjr]
      simp
    · apply filterMap_single _ col _ hs hnd hcol
      · rw [valueAt_editCell_self dta r col v hr,
          if_pos (fun hh => hne hh.symm)]
      · intro h _ hhc
        rw [valueAt_editCell_ne_col dta r col v h hhc]
        simp

/-! ## Page state and handlers

`CsvRepairPage` state (csv-repair.tsx lines 1392-1424) restricted to the
fields the modelled handlers read or write: the current snapshot
(`csvData.data`/`csvData.headers`; the `delimiter`, `errors` and
`fileName` fields are never touched by these handlers), the history log
and cursor, the sort state, and the search query/replacement. -/

/-- Sort direction (`SortDir`, non-null part). -/
inductive SortDirection where
  | asc
  | desc
deriving DecidableEq

/-- The current snapshot of `csvData` (the fields the handlers use). -/
structure CsvData where
  data : List Row
  headers : List String
deriving DecidableEq

/-- The page state the modelled handlers operate on. -/
structure AppState where
  csvData : Option CsvData
  history : List HistoryEntry
  historyIndex : Int
  sortCol : Option String
  sortDir : Option SortDirection
  searchQuery : String
  searchReplacement : String
deriving DecidableEq

/-- A handler's call to `pushHistory` (lines 1427-1438): updates the log
and the cursor. -/
def pushHistoryApp (s : AppState) (d : List Row) (hs : List String)
    (label : String) : AppState :=
  let p := pushHistory s.history s.historyIndex ⟨d, hs, label⟩
  { s with history := p.1, historyIndex := p.2 }

/-- `String.prototype.toLowerCase` (agrees with `Char.toLower` on
ASCII). -/
def jsToLower (s : String) : String := ⟨s.data.map Char.toLower⟩

/-- `String.prototype.includes` over character lists. -/
def containsSubChars : List Char → List Char → Bool
  | [], needle => needle.isEmpty
  | c :: rest, needle => needle.isPrefixOf (c :: rest) || containsSubChars rest needle

/-- `hay.includes(needle)`. -/
def containsSubStr (hay needle : String) : Bool :=
  containsSubChars hay.data needle.data

/-- `searchMatches` (lines 1468-1480): row-major then header-order scan
of cells containing the lower-cased query; empty for an empty query or no
loaded file. -/
def searchMatches (s : AppState) : List (Nat × String) :=
  match s.csvData with
  | none => []
  | some d =>
    if s.searchQuery = "" then []
    else
      let q := jsToLower s.searchQuery
      (List.range d.data.length).flatMap (fun r =>
        d.headers.filterMap (fun h =>
          if containsSubStr (jsToLower (getV (d.data.getD r default) h)) q
          then some (r, h) else none))

/-- Case-insensitive character comparison: the `i` regex flag (agrees
with JavaScript canonicalization on ASCII). -/
def eqCI (a b : Char) : Bool := a.toLower == b.toLower

/-- Case-insensitive prefix test (pattern first). -/
def isPrefixCI : List Char → List Char → Bool
  | [], _ => true
  | _ :: _, [] => false
  | a :: as, b :: bs => eqCI a b && isPrefixCI as bs

/-- The scan of `String.prototype.replace` with a global case-insensitive
literal regex: leftmost non-overlapping case-insensitive occurrences are
replaced, other characters copied.  Structural recursion on a fuel that
the wrapper sets to the haystack length, which suffices because each step
consumes at least one character (the pattern is nonempty whenever the
wrapper recurses). -/
def replaceAllCIGo (pat repl : List Char) : Nat → List Char → List Char
  | _, [] => []
  | 0, hay => hay
  | fuel + 1, c :: rest =>
    if isPrefixCI pat (c :: rest) then
      repl ++ replaceAllCIGo pat repl fuel ((c :: rest).drop pat.length)
    else c :: replaceAllCIGo pat repl fuel rest

/-- `hay.replace(new RegExp(escapedPat, "gi"), repl)` for a literal
(escaped) pattern and a replacement without `$` substitution sequences
(the claims' replacements have none).  The empty-pattern branch is
unreachable from `handleReplaceAll`, whose guard requires a nonempty
query. -/
def replaceAllCI (hay pat repl : String) : String :=
  if pat.data.isEmpty then hay
  else ⟨replaceAllCIGo pat.data repl.data hay.data.length hay.data⟩

/-- The number of occurrences the same scan replaces. -/
def countOccCIGo (pat : List Char) : Nat → List Char → Nat
  | _, [] => 0
  | 0, _ => 0
  | fuel + 1, c :: rest =>
    if isPrefixCI pat (c :: rest) then
      1 + countOccCIGo pat fuel ((c :: rest).drop pat.length)
    else countOccCIGo pat fuel rest

/-- Occurrences of `pat` (case-insensitive, non-overlapping, leftmost) in
`hay`. -/
def countOccCI (hay pat : String) : Nat :=
  if pat.data.isEmpty then 0
  else countOccCIGo pat.data hay.data.length hay.data

/-- Total occurrences of the query over all cells of the loaded data:
what `ReplaceAll` actually replaces. -/
def totalOccurrences (s : AppState) : Nat :=
  match s.csvData with
  | none => 0
  | some d =>
    (d.data.map (fun row =>
      (d.headers.map (fun h => countOccCI (getV row h) s.searchQuery)).sum)).sum

/-- `handleReplaceAll` (lines 1773-1786): guard on a loaded file and a
nonempty match list; replace in every truthy cell; one `pushHistory`;
set the new snapshot. -/
def handleReplaceAll (s : AppState) : AppState :=
  match s.csvData with
  | none => s
  | some d =>
    if (searchMatches s).length = 0 then s
    else
      let newData := d.data.map (fun row =>
        d.headers.foldl (fun nr h =>
          if getV nr h ≠ "" then
            setKey nr h (replaceAllCI (getV nr h) s.searchQuery
              s.searchReplacement)
          else nr) row)
      let s' := pushHistoryApp s newData d.headers
        ("Replace all \"" ++ s.searchQuery ++ "\" -> \"" ++
          s.searchReplacement ++ "\"")
      { s' with csvData := some ⟨newData, d.headers⟩ }

/-- The count `handleReplaceAll` reports in its toast (line 1785):
`searchMatches.length`. -/
def replaceAllReported (s : AppState) : Nat := (searchMatches s).length

/-- `handleDeleteColumn` (lines 1720-1735): reject when at most one column
remains (toast only, no push, no state change); otherwise remove the
column from the headers and from every row, as one push. -/
def handleDeleteColumn (col : String) (s : AppState) : AppState :=
  match s.csvData with
  | none => s
  | some d =>
    if d.headers.length ≤ 1 then s
    else
      let newHeaders := d.headers.filter (fun h => !(h == col))
      let newData := d.data.map (delKey col)
      let s' := pushHistoryApp s newData newHeaders
        ("Delete column \"" ++ col ++ "\"")
      { s' with csvData := some ⟨newData, newHeaders⟩ }

/-- `handleSort` (lines 1608-1643).  The ascending/descending comparator
calls the host's `Number` coercion and `localeCompare`, so the sorted
order is taken as a parameter `sortRows`; no claim depends on it.  The
unsorted step restores `history[0].data`, bypassing the cursor. -/
def handleSort (sortRows : String → SortDirection → List Row → List Row)
    (header : String) (s : AppState) : AppState :=
  match s.csvData with
  | none => s
  | some d =>
    let newDir : Option SortDirection :=
      if s.sortCol ≠ some header then some .asc
      else if s.sortDir = some .asc then some .desc
      else none
    let s1 := { s with
      sortCol := if newDir.isSome then some header else none,
      sortDir := newDir }
    match newDir with
    | some dir => { s1 with csvData := some ⟨sortRows header dir d.data, d.headers⟩ }
    | none =>
      match s.history.head? with
      | some entry => { s1 with csvData := some ⟨entry.data, d.headers⟩ }
      | none => s1

/-- A row every cell of which is blank after trimming (lines 1792-1795). -/
def allEmptyRow (headers : List String) (row : Row) : Bool :=
  headers.all (fun h => jsTrim (getV row h) == "")

/-- One header step of the auto-repair trim loop (lines 1797-1805):
`if (newRow[h] && newRow[h] !== newRow[h].trim()) { newRow[h] = trim;
repairCount++ }`. -/
def autoRepairStep (nr : Row × Nat) (h : String) : Row × Nat :=
  let v := getV nr.1 h
  if !(v == "") && !(v == jsTrim v) then (setKey nr.1 h (jsTrim v), nr.2 + 1)
  else nr

/-- The trimmed row and the number of cells trimmed in it. -/
def autoRepairRow (headers : List String) (row : Row) : Row × Nat :=
  headers.foldl autoRepairStep (row, 0)

/-- The data `handleAutoRepair` computes (lines 1791-1806): drop all-empty
rows, then trim every cell of the kept rows. -/
def autoRepairData (d : CsvData) : List Row :=
  (d.data.filter (fun row => !allEmptyRow d.headers row)).map
    (fun row => (autoRepairRow d.headers row).1)

/-- The `repairCount` of `handleAutoRepair`: removed empty rows plus
trimmed cells. -/
def autoRepairCount (d : CsvData) : Nat :=
  d.data.countP (fun row => allEmptyRow d.headers row) +
    ((d.data.filter (fun row => !allEmptyRow d.headers row)).map
      (fun row => (autoRepairRow d.headers row).2)).sum

/-- `handleAutoRepair` (lines 1788-1815): unconditionally one push of the
repaired data (the toast text varies with `repairCount`, the push does
not). -/
def handleAutoRepair (s : AppState) : AppState :=
  match s.csvData with
  | none => s
  | some d =>
    let newData := autoRepairData d
    let s' := pushHistoryApp s newData d.headers "Auto-repair"
    { s' with csvData := some ⟨newData, d.headers⟩ }

/-- The `result` argument a repair template hands to `handleApplyTemplate`. -/
structure TemplateResult where
  data : List Row
  headers : List String
  changes : Nat

/-- `handleApplyTemplate` (lines 1656-1671): zero changes is a no-op
toast, no push; otherwise one push and the new snapshot. -/
def handleApplyTemplate (templateId : String) (result : TemplateResult)
    (s : AppState) : AppState :=
  match s.csvData with
  | none => s
  | some _ =>
    if result.changes = 0 then s
    else
      let s' := pushHistoryApp s result.data result.headers
        ("Template: " ++ templateId)
      { s' with csvData := some ⟨result.data, result.headers⟩ }

/-- The state of the claim C4 example: rows `[{a:"foo foo"}, {a:"baz"}]`
just loaded, query `"foo"`, replacement `"bar"`. -/
def replaceAllExample : AppState :=
  { csvData := some ⟨[[("a", "foo foo")], [("a", "baz")]], ["a"]⟩,
    history := [⟨[[("a", "foo foo")], [("a", "baz")]], ["a"], "Initial load"⟩],
    historyIndex := 0,
    sortCol := none, sortDir := none,
    searchQuery := "foo", searchReplacement := "bar" }

/-- Claim C4, checked at its own example: `ReplaceAll("foo" -> "bar")`
over `[{a:"foo foo"}, {a:"baz"}]` does yield `[{a:"bar bar"}, {a:"baz"}]`
in one history push, and 2 occurrences are replaced — but the reported
count is `searchMatches.length = 1`, the number of cells containing the
query, not the number of occurrences replaced, contradicting the claim
(and the toast's own "occurrences" wording). -/
theorem C4_replaceAll_count_bug :
    (handleReplaceAll replaceAllExample).csvData =
      some ⟨[[("a", "bar bar")], [("a", "baz")]], ["a"]⟩ ∧
    (handleReplaceAll replaceAllExample).history.length =
      replaceAllExample.history.length + 1 ∧
    totalOccurrences replaceAllExample = 2 ∧
    replaceAllReported replaceAllExample = 1 := by
  refine ⟨by decide, by decide, by decide, by decide⟩

theorem filter_ne_eq_erase (col : String) :
    ∀ l : List String, l.Nodup →
      l.filter (fun h => !(h == col)) = l.erase col := by
  intro l
  induction l with
  | nil => intro _; rfl
  | cons a rest ih =>
    intro hnd
    by_cases ha : a = col
    · subst ha
      have hnotin : a ∉ rest := (List.nodup_cons.mp hnd).1
      have hfil : rest.filter (fun h => !(h == a)) = rest := by
        apply List.filter_eq_self.mpr
        intro b hb
        have : b ≠ a := fun e => hnotin (e ▸ hb)
        simp [this]
      simp [List.filter_cons, hfil, List.erase_cons_head]
    · have hne' : ¬ ((a == col) = true) := by simp [ha]
      simp only [List.filter_cons, Bool.not_eq_eq_eq_not, Bool.not_true]
      rw [if_pos (by simp [ha]), List.erase_cons_tail,
        ih (List.nodup_cons.mp hnd).2]
      simp [ha]

/-- Claim C5: deleting a column of a one-column dataset is rejected with
no history push and no state change at all; with more than one column the
handler removes exactly that column from the headers (the unique matching
header is erased) and from every row, and commits the result as exactly
one `pushHistory`. -/
theorem C5_delete_column (s : AppState) (d : CsvData) (col : String)
    (hd : s.csvData = some d) :
    (d.headers.length ≤ 1 → handleDeleteColumn col s = s) ∧
    (1 < d.headers.length →
      (handleDeleteColumn col s).csvData =
        some ⟨d.data.map (delKey col),
          d.headers.filter (fun h => !(h == col))⟩ ∧
      (handleDeleteColumn col s).history =
        (pushHistory s.history s.historyIndex
          ⟨d.data.map (delKey col), d.headers.filter (fun h => !(h == col)),
            "Delete column \"" ++ col ++ "\""⟩).1 ∧
      (handleDeleteColumn col s).historyIndex =
        min (s.historyIndex + 1) ((MAX_HISTORY : Int) - 1) ∧
      (d.headers.Nodup →
        d.headers.filter (fun h => !(h == col)) = d.headers.erase col) ∧
      (d.headers.Nodup → col ∈ d.headers →
        (d.headers.filter (fun h => !(h == col))).length + 1 =
          d.headers.length) ∧
      (∀ row ∈ d.data, hasKey (delKey col row) col = false ∧
        ∀ h, h ≠ col → getV (delKey col row) h = getV row h)) := by
  constructor
  · intro hle
    simp only [handleDeleteColumn, hd]
    rw [if_pos hle]
  · intro hgt
    have hnle : ¬ d.headers.length ≤ 1 := by omega
    simp only [handleDeleteColumn, hd]
    rw [if_neg hnle]
    refine ⟨rfl, rfl, rfl, ?_, ?_, ?_⟩
    · exact fun hnd => filter_ne_eq_erase col d.headers hnd
    · intro hnd hmem
      rw [filter_ne_eq_erase col d.headers hnd]
      have := d.headers.length_erase_of_mem hmem
      omega
    · intro row _
      exact ⟨hasKey_delKey row col, fun h hh => getV_delKey_ne row col h hh⟩

/-- A one-column loaded state for the C5 witness. -/
def oneColState : AppState :=
  { csvData := some ⟨[[("a", "x")]], ["a"]⟩,
    history := [⟨[[("a", "x")]], ["a"], "Initial load"⟩],
    historyIndex := 0, sortCol := none, sortDir := none,
    searchQuery := "", searchReplacement := "" }

/-- Witness for C5: deleting the only column of a one-column dataset
leaves the state (history included) untouched. -/
theorem C5_delete_column_witness :
    handleDeleteColumn "a" oneColState = oneColState :=
  (C5_delete_column oneColState ⟨[[("a", "x")]], ["a"]⟩ "a" rfl).1 (by decide)

theorem handleSort_frame (sortRows : String → SortDirection →
    List Row → List Row) (header : String) (s : AppState) :
    (handleSort sortRows header s).history = s.history ∧
    (handleSort sortRows header s).historyIndex = s.historyIndex := by
  unfold handleSort
  cases hc : s.csvData with
  | none => exact ⟨rfl, rfl⟩
  | some d =>
    by_cases h1 : s.sortCol ≠ some header
    · simp [if_pos h1]
    · by_cases h2 : s.sortDir = some SortDirection.asc
      · simp [if_neg h1, if_pos h2]
      · simp only [if_neg h1, if_neg h2]
        cases hh : s.history.head? with
        | none => exact ⟨rfl, rfl⟩
        | some e => exact ⟨rfl, rfl⟩

/-- Claim C9: sorting never touches the history log or cursor (no push in
any branch), and cycling one column ascending, then descending, then
unsorted restores the row data of the snapshot at history index 0 —
`history[0]`, not the entry at the cursor — with the headers unchanged,
and clears the sort state. -/
theorem C9_sort_view_level (sortRows : String → SortDirection →
    List Row → List Row) (header : String) (s : AppState) (d : CsvData)
    (hd : s.csvData = some d) (hcol : s.sortCol ≠ some header)
    (hhist : s.history ≠ []) :
    (∀ (f : String → SortDirection → List Row → List Row) (h' : String)
      (s' : AppState), (handleSort f h' s').history = s'.history ∧
        (handleSort f h' s').historyIndex = s'.historyIndex) ∧
    (handleSort sortRows header (handleSort sortRows header
        (handleSort sortRows header s))).csvData =
      some ⟨(s.history.headD default).data, d.headers⟩ ∧
    (handleSort sortRows header (handleSort sortRows header
        (handleSort sortRows header s))).sortCol = none ∧
    (handleSort sortRows header (handleSort sortRows header
        (handleSort sortRows header s))).sortDir = none := by
  obtain ⟨e0, rest, hrest⟩ : ∃ e0 rest, s.history = e0 :: rest := by
    cases hcase : s.history with
    | nil => exact absurd hcase hhist
    | cons a t => exact ⟨a, t, rfl⟩
  have h1 : handleSort sortRows header s =
      { s with
          sortCol := some header
          sortDir := some SortDirection.asc
          csvData := some ⟨sortRows header SortDirection.asc d.data,
            d.headers⟩ } := by
    simp only [handleSort, hd, if_pos hcol]
    rfl
  have h2 : handleSort sortRows header (handleSort sortRows header s) =
      { s with
          sortCol := some header
          sortDir := some SortDirection.desc
          csvData := some ⟨sortRows header SortDirection.desc
            (sortRows header SortDirection.asc d.data), d.headers⟩ } := by
    rw [h1]
    simp [handleSort]
  have h3 : handleSort sortRows header (handleSort sortRows header
      (handleSort sortRows header s)) =
      { s with
          sortCol := none
          sortDir := none
          csvData := some ⟨e0.data, d.headers⟩ } := by
    rw [h2]
    simp [handleSort, hrest]
  refine ⟨fun f h' s' => handleSort_frame f h' s', ?_, ?_, ?_⟩
  · rw [h3, hrest]
    rfl
  · rw [h3]
  · rw [h3]

/-- A loaded two-entry-free state shared by witnesses. -/
def loadedExample : AppState :=
  { csvData := some ⟨[[("a", "x")]], ["a"]⟩,
    history := [⟨[[("a", "x")]], ["a"], "Initial load"⟩],
    historyIndex := 0, sortCol := none, sortDir := none,
    searchQuery := "", searchReplacement := "" }

/-- A concrete sorted-order parameter for the C9 witness. -/
def idSortRows : String → SortDirection → List Row → List Row :=
  fun _ _ rows => rows

/-- Witness for C9: the full ascending/descending/unsorted cycle on a
concrete loaded state ends with the sort state cleared. -/
theorem C9_sort_view_level_witness :
    (handleSort idSortRows "a" (handleSort idSortRows "a"
      (handleSort idSortRows "a" loadedExample))).sortDir = none :=
  (C9_sort_view_level idSortRows "a" loadedExample ⟨[[("a", "x")]], ["a"]⟩
    rfl (by decide) (by decide)).2.2.2

theorem autoRepairStep_snd_le (p : Row × Nat) (h : String) :
    p.2 ≤ (autoRepairStep p h).2 := by
  unfold autoRepairStep
  dsimp only
  split
  · dsimp only
    omega
  · exact le_refl _

theorem autoRepairStep_eq_of_snd (p : Row × Nat) (h : String)
    (hsnd : (autoRepairStep p h).2 = p.2) : autoRepairStep p h = p := by
  unfold autoRepairStep at hsnd ⊢
  dsimp only at hsnd ⊢
  by_cases hc : (!(getV p.1 h == "") &&
      !(getV p.1 h == jsTrim (getV p.1 h))) = true
  · rw [if_pos hc] at hsnd
    dsimp only at hsnd
    omega
  · rw [if_neg hc]

theorem foldl_autoRepairStep_snd_mono (hs : List String) :
    ∀ p : Row × Nat, p.2 ≤ (hs.foldl autoRepairStep p).2 := by
  induction hs with
  | nil => intro p; exact le_refl _
  | cons h t ih =>
    intro p
    rw [List.foldl_cons]
    exact le_trans (autoRepairStep_snd_le p h) (ih (autoRepairStep p h))

theorem foldl_autoRepairStep_fixed (hs : List String) :
    ∀ p : Row × Nat, (hs.foldl autoRepairStep p).2 = p.2 →
      hs.foldl autoRepairStep p = p := by
  induction hs with
  | nil => intro p _; rfl
  | cons h t ih =>
    intro p hsnd
    rw [List.foldl_cons] at hsnd ⊢
    have hmono := foldl_autoRepairStep_snd_mono t (autoRepairStep p h)
    have hstep := autoRepairStep_snd_le p h
    have hq2 : (autoRepairStep p h).2 = p.2 := by omega
    have hqp : autoRepairStep p h = p := autoRepairStep_eq_of_snd p h hq2
    rw [hqp] at hsnd ⊢
    exact ih p hsnd

theorem map_self_of (f : Row → Row) :
    ∀ l : List Row, (∀ r ∈ l, f r = r) → l.map f = l := by
  intro l
  induction l with
  | nil => intro _; rfl
  | cons a t ih =>
    intro h
    rw [List.map_cons, h a (by simp), ih (fun r hr => h r (by simp [hr]))]

theorem autoRepairData_of_count_zero (d : CsvData)
    (hz : autoRepairCount d = 0) : autoRepairData d = d.data := by
  unfold autoRepairCount at hz
  have hempty : d.data.countP (fun row => allEmptyRow d.headers row) = 0 := by
    omega
  have hsum : ((d.data.filter (fun row => !allEmptyRow d.headers row)).map
      (fun row => (autoRepairRow d.headers row).2)).sum = 0 := by omega
  have hfil : d.data.filter (fun row => !allEmptyRow d.headers row) =
      d.data := by
    apply List.filter_eq_self.mpr
    intro row hrow
    have := (List.countP_eq_zero.mp hempty) row hrow
    simpa using this
  unfold autoRepairData
  rw [hfil]
  apply map_self_of
  intro r hr
  have hmem : (autoRepairRow d.headers r).2 ∈
      ((d.data.filter (fun row => !allEmptyRow d.headers row)).map
        (fun row => (autoRepairRow d.headers row).2)) := by
    rw [hfil]
    exact List.mem_map_of_mem _ hr
  have hz2 : (autoRepairRow d.headers r).2 = 0 :=
    List.sum_eq_zero_iff.mp hsum _ hmem
  have := foldl_autoRepairStep_fixed d.headers (r, 0) hz2
  exact congrArg Prod.fst this

/-- Claim C10: `handleAutoRepair` performs exactly one history push
unconditionally — when it finds nothing to fix (`repairCount = 0`) the
pushed data equals the current data, capacity is still consumed and an
immediate undo becomes available — whereas replace-all with zero matches
and a template application with zero changes change nothing at all. -/
theorem C10_autorepair_always_pushes (s : AppState) (d : CsvData)
    (tid : String) (result : TemplateResult) (hd : s.csvData = some d) :
    (handleAutoRepair s).history =
      (pushHistory s.history s.historyIndex
        ⟨autoRepairData d, d.headers, "Auto-repair"⟩).1 ∧
    (handleAutoRepair s).historyIndex =
      min (s.historyIndex + 1) ((MAX_HISTORY : Int) - 1) ∧
    (handleAutoRepair s).csvData = some ⟨autoRepairData d, d.headers⟩ ∧
    (autoRepairCount d = 0 → autoRepairData d = d.data) ∧
    (0 ≤ s.historyIndex → 0 < (handleAutoRepair s).historyIndex) ∧
    ((searchMatches s).length = 0 → handleReplaceAll s = s) ∧
    (result.changes = 0 → handleApplyTemplate tid result s = s) := by
  refine ⟨?_, ?_, ?_, autoRepairData_of_count_zero d, ?_, ?_, ?_⟩
  · simp only [handleAutoRepair, hd]
    rfl
  · simp only [handleAutoRepair, hd]
    rfl
  · simp only [handleAutoRepair, hd]
  · intro hge
    have hix : (handleAutoRepair s).historyIndex =
        min (s.historyIndex + 1) ((MAX_HISTORY : Int) - 1) := by
      simp only [handleAutoRepair, hd]
      rfl
    rw [hix]
    unfold MAX_HISTORY
    omega
  · intro hzero
    simp only [handleReplaceAll, hd]
    rw [if_pos hzero]
  · intro hzero
    simp only [handleApplyTemplate, hd]
    rw [if_pos hzero]

/-- Witness for C10: on a freshly loaded one-row state, replace-all with
an empty query changes nothing. -/
theorem C10_autorepair_always_pushes_witness :
    handleReplaceAll loadedExample = loadedExample :=
  (C10_autorepair_always_pushes loadedExample ⟨[[("a", "x")]], ["a"]⟩
    "t" ⟨[], [], 0⟩ rfl).2.2.2.2.2.1 (by decide)
